import Mathlib

/-!
# vowpalwabbit/example.h

A shallow embedding of the example datatype of `vowpalwabbit/example.h` and of the
operations declared next to it, followed by theorems about them.

Conventions of the embedding:

* `size_t`, `uint64_t`, `uint32_t` values are natural numbers; where the width matters
  the reduction modulo `2^32` or `2^64` is written out.
* `unsigned char` and `char` are `Fin 256`.
* a `float` is carried as its binary32 bit pattern; nothing here does float arithmetic.
* `v_array<T>` is a list of `T`.
* the two unions `polylabel` and `polyprediction` draw their members from headers that
  are not part of this file, so they are type parameters of `Example`.
* `example::passthrough` is a pointer to a `v_array<feature>`: `none` is the null
  pointer, and a `feature_ptr` is either the address of a sequence held outside the
  example (in a `feature_store`, addressed by natural numbers) or the address of one of
  the example's own namespace sequences, `&ec.atomics[ns]`, which has the same type.
-/

namespace VW

/-! ## Data model -/

/-- A C `float`, represented by its IEEE-754 binary32 bit pattern. -/
structure float where
  bits : Nat
  deriving DecidableEq, Repr

/-- The value `0.0f`. -/
def float.zero : float := ⟨0⟩
/-- The value `1.0f`. -/
def float.one : float := ⟨0x3F800000⟩
/-- The value `2.0f`. -/
def float.two : float := ⟨0x40000000⟩
/-- The value `3.0f`. -/
def float.three : float := ⟨0x40400000⟩
/-- The value `9.0f`. -/
def float.nine : float := ⟨0x41100000⟩

/-- Modelled from the spec: `v_array.h` is not part of the source; a `v_array<T>` is the
growable sequence the spec calls a "sequence", with `size`, `last` and `push_back`. -/
abbrev v_array (α : Type) := List α

/-- The call `v.size()`. -/
def v_array.size {α : Type} (v : v_array α) : Nat := v.length

/-- The call `v.last()`: the final element; there is none when `v` is empty. -/
def v_array.last {α : Type} (v : v_array α) : Option α := v.getLast?

/-- The call `v.push_back(a)`. -/
def v_array.push_back {α : Type} (v : v_array α) (a : α) : v_array α := v ++ [a]

def wap_ldf_namespace : Nat := 126
def history_namespace : Nat := 127
def constant_namespace : Nat := 128
def nn_output_namespace : Nat := 129
def autolink_namespace : Nat := 130
def neighbor_namespace : Nat := 131
def affix_namespace : Nat := 132
def spelling_namespace : Nat := 133
def conditioning_namespace : Nat := 134
def dictionary_namespace : Nat := 135

/-- The ten namespace constants of `example.h`, in the order of their declaration. -/
def reserved_namespaces : List Nat :=
  [wap_ldf_namespace, history_namespace, constant_namespace, nn_output_namespace,
   autolink_namespace, neighbor_namespace, affix_namespace, spelling_namespace,
   conditioning_namespace, dictionary_namespace]

/-- `struct feature`: a value and a 64-bit weight index. -/
structure feature where
  x : float
  weight_index : Nat
  deriving DecidableEq, Repr

/-- `feature::operator==`: `weight_index == j.weight_index`. -/
def feature.eq (a j : feature) : Bool := a.weight_index == j.weight_index

/-- `struct audit_data`. -/
structure audit_data where
  space : String
  feature : String
  weight_index : Nat
  x : float

/-- A non-null value of the type `v_array<feature>*` of `example::passthrough`: the
address `&ec.atomics[ns]` of one of the example's own namespace sequences, or the
address of a sequence held outside the example. -/
inductive feature_ptr where
  | atomics (ns : Fin 256)
  | outside (a : Nat)
  deriving DecidableEq, Repr

/-- `struct example`, the core example datatype. The fields are those of the source,
in its order. -/
structure Example (polylabel polyprediction : Type) where
  pred : polyprediction
  l : polylabel
  weight : float
  tag : v_array (Fin 256)
  example_counter : Nat
  indices : v_array (Fin 256)
  atomics : Fin 256 → v_array feature
  ft_offset : Nat
  audit_features : Fin 256 → v_array audit_data
  num_features : Nat
  partial_prediction : float
  updated_prediction : float
  topic_predictions : v_array float
  loss : float
  example_t : float
  sum_feat_sq : Fin 256 → float
  total_sum_feat_sq : float
  confidence : float
  passthrough : Option feature_ptr
  test_only : Bool
  end_pass : Bool
  sorted : Bool
  in_use : Bool

/-- The feature sequences held outside the example, by address. -/
abbrev feature_store := Nat → v_array feature

/-- An example with no namespaces, no features and a null `passthrough`; the starting
point of the concrete examples used below. -/
def Example.blank : Example Unit Unit where
  pred := ()
  l := ()
  weight := float.one
  tag := []
  example_counter := 0
  indices := []
  atomics := fun _ => []
  ft_offset := 0
  audit_features := fun _ => []
  num_features := 0
  partial_prediction := float.zero
  updated_prediction := float.zero
  topic_predictions := []
  loss := float.zero
  example_t := float.zero
  sum_feat_sq := fun _ => float.zero
  total_sum_feat_sq := float.zero
  confidence := float.zero
  passthrough := none
  test_only := false
  end_pass := false
  sorted := false
  in_use := false

/-- A store in which every address holds the empty sequence. -/
def feature_store.empty : feature_store := fun _ => []

/-! ## Operations -/

/-- `example_is_newline`: the `int` value of
`(ec.indices.size() == 0) || ((ec.indices.size() == 1) && (ec.indices.last() == constant_namespace))`,
where the `unsigned char` read by `last()` is widened for the comparison. -/
def example_is_newline {L P : Type} (ec : Example L P) : Nat :=
  Bool.toNat ((ec.indices.size == 0) ||
    ((ec.indices.size == 1) &&
      (ec.indices.last.map Fin.val == some constant_namespace)))

/-- Modelled from the spec: `constant.h` is not part of the source; `FNV_prime` is the
fixed prime of the multiplicative hash, the 32-bit unsigned FNV prime 16777619. -/
def FNV_prime : Nat := 16777619

/-- The index expression `(FNV_prime * magic) ^ i` of `add_passthrough_feature_magic` on
the `uint32_t` values `magic` and `i`: the product is taken in 32 bits, the exclusive or
with `i` follows, and the result is converted to the `uint64_t` parameter of the
`feature` constructor. -/
def passthrough_index (magic i : Nat) : Nat :=
  (((FNV_prime * magic) % 2 ^ 32) ^^^ i) % 2 ^ 64

/-- The sequence `*p` that a pointer refers to, in the state made of the example and
the store. -/
def read_ptr {L P : Type} (ec : Example L P) (mem : feature_store) :
    feature_ptr → v_array feature
  | .atomics ns => ec.atomics ns
  | .outside a => mem a

/-- The state after `*p` has been given the value `v`. -/
def write_ptr {L P : Type} (ec : Example L P) (mem : feature_store)
    (p : feature_ptr) (v : v_array feature) : Example L P × feature_store :=
  match p with
  | .atomics ns => ({ ec with atomics := Function.update ec.atomics ns v }, mem)
  | .outside a => (ec, Function.update mem a v)

/-- `add_passthrough_feature_magic`: when `ec.passthrough` is not null, push
`feature(x, (FNV_prime * magic) ^ i)` onto the sequence it points to. The outcome is the
example and the store after the call. -/
def add_passthrough_feature_magic {L P : Type} (ec : Example L P) (mem : feature_store)
    (magic i : Nat) (x : float) : Example L P × feature_store :=
  match ec.passthrough with
  | none => (ec, mem)
  | some p =>
    write_ptr ec mem p ((read_ptr ec mem p).push_back ⟨x, passthrough_index magic i⟩)

/-- The character `__FILE__[k]` as an `int`, for a path of 7-bit characters; the
terminating NUL is read at the end of the path, so a path of two or more characters has
its characters 0, 1 and 2 defined. -/
def file_char (file : String) (k : Nat) : Nat :=
  (file.toList.getD k (Char.ofNat 0)).toNat

/-- The magic tag the `add_passthrough_feature` macro computes from `__FILE__`:
`__FILE__[0]*483901+__FILE__[1]*3417+__FILE__[2]*8490177`, converted to `uint32_t`. -/
def file_magic (file : String) : Nat :=
  (file_char file 0 * 483901 + file_char file 1 * 3417 + file_char file 2 * 8490177) % 2 ^ 32

/-- The macro `add_passthrough_feature(ec, i, x)`, expanded in the source file `file`. -/
def add_passthrough_feature {L P : Type} (file : String) (ec : Example L P)
    (mem : feature_store) (i : Nat) (x : float) : Example L P × feature_store :=
  add_passthrough_feature_magic ec mem (file_magic file) i x

/-- An example whose `passthrough` points at the outside sequence at address 0;
otherwise `Example.blank`. -/
def Example.with_passthrough : Example Unit Unit :=
  { Example.blank with passthrough := some (.outside 0) }

/-- The part `483901 * d0 + 8490177 * d2` of a difference of two magic tags, for the
character differences `d0 = k0 - 127` and `d2 = k2 - 7`. -/
def tag_sum (k0 k2 : Nat) : Int :=
  483901 * ((k0 : Int) - 127) + 8490177 * ((k2 : Int) - 7)

/-- Checks one pair of character differences: the remaining term `3417 * d1` with
`|d1| ≤ 127` can cancel `tag_sum` only when both differences are zero. -/
def tag_check (k2 k0 : Nat) : Bool :=
  !(tag_sum k0 k2 % 3417 == 0 && decide (-433959 ≤ tag_sum k0 k2) &&
      decide (tag_sum k0 k2 ≤ 433959))
    || (k0 == 127 && k2 == 7)

/-- `struct flat_example`. -/
structure flat_example (polylabel : Type) where
  l : polylabel
  tag_len : Nat
  tag : v_array (Fin 256)
  example_counter : Nat
  ft_offset : Nat
  global_weight : float
  num_features : Nat
  total_sum_feat_sq : float
  feature_map_len : Nat
  feature_map : v_array feature

/-- Modelled from the spec: `struct vw`, the engine context, is only declared in
`example.h`; the spec has it provide what flatten needs beyond the example. Of it only
the global weight is kept, which a flat example holds and no field of the example
carries. -/
structure vw where
  global_weight : float

/-- Modelled from the spec: `flatten_example` is declared in `example.h` and defined
outside the source. It "copies label, tag, counters, and concatenates all namespace
feature sequences (in namespace-iteration order, then in-namespace order) into one
contiguous map", and leaves the example as it is. The weight offset of a flat example
has 32 bits. -/
def flatten_example {L P : Type} (all : vw) (ec : Example L P) : flat_example L where
  l := ec.l
  tag_len := ec.tag.size
  tag := ec.tag
  example_counter := ec.example_counter
  ft_offset := ec.ft_offset % 2 ^ 32
  global_weight := all.global_weight
  num_features := ec.num_features
  total_sum_feat_sq := ec.total_sum_feat_sq
  feature_map_len := v_array.size (ec.indices.flatMap ec.atomics)
  feature_map := ec.indices.flatMap ec.atomics

/-- The order `flattenSort` sorts by: ascending `weight_index`. -/
def feature_le (a b : feature) : Prop := a.weight_index ≤ b.weight_index

instance feature_le_decidable : DecidableRel feature_le :=
  fun a b => inferInstanceAs (Decidable (a.weight_index ≤ b.weight_index))

/-- Modelled from the spec: `flatten_sort_example` is declared in `example.h` and defined
outside the source. It "performs the same copy then reorders the resulting map by
ascending hashedIndex, breaking ties by original position (stable sort)"; the stable
sort is written as a sort by insertion. -/
def flatten_sort_example {L P : Type} (all : vw) (ec : Example L P) : flat_example L :=
  { flatten_example all ec with
    feature_map := (flatten_example all ec).feature_map.insertionSort feature_le }

/-- The example of the spec: namespace `A` (65) holds `(1.0, 10)`, namespace `B` (66)
holds `(2.0, 20)` and `(3.0, 30)`. -/
def Example.two_namespaces : Example Unit Unit :=
  { Example.blank with
    indices := [65, 66]
    atomics := fun ns =>
      if ns = 65 then [⟨float.one, 10⟩]
      else if ns = 66 then [⟨float.two, 20⟩, ⟨float.three, 30⟩]
      else []
    num_features := 3 }

/-- The same example with its two namespaces listed in the other order. -/
def Example.two_namespaces_swapped : Example Unit Unit :=
  { Example.two_namespaces with indices := [66, 65] }

/-- An engine context with global weight `1.0`. -/
def vw.unit : vw := ⟨float.one⟩

/-- `valid_ns`: `!(c == '|' || c == ':')`, on the byte value of the `char`. -/
def valid_ns (c : Fin 256) : Bool :=
  !(c.val == Char.toNat '|' || c.val == Char.toNat ':')

/-- The example of the spec with `passthrough` pointing at the outside sequence at
address 0. -/
def Example.two_namespaces_passthrough : Example Unit Unit :=
  { Example.two_namespaces with passthrough := some (.outside 0) }

/-- An example with one feature in namespace `A` (65), `num_features` 1, and
`passthrough` pointing at its own `atomics[65]`. -/
def Example.aliased : Example Unit Unit :=
  { Example.blank with
    indices := [65]
    atomics := fun ns => if ns = 65 then [⟨float.one, 10⟩] else []
    num_features := 1
    passthrough := some (.atomics 65) }

/-! ## Helper lemmas -/

theorem example_is_newline_nil {L P : Type} (ec : Example L P) (h : ec.indices = []) :
    example_is_newline ec = 1 := by
  simp [example_is_newline, v_array.size, h]

theorem example_is_newline_single {L P : Type} (ec : Example L P) (a : Fin 256)
    (h : ec.indices = [a]) :
    example_is_newline ec = Bool.toNat (a.val == constant_namespace) := by
  simp [example_is_newline, v_array.size, v_array.last, h]

theorem example_is_newline_many {L P : Type} (ec : Example L P)
    (h : 2 ≤ ec.indices.length) : example_is_newline ec = 0 := by
  have h0 : ec.indices.length ≠ 0 := by omega
  have h1 : ec.indices.length ≠ 1 := by omega
  simp [example_is_newline, v_array.size, h0, h1]

/-- Multiplication by an odd number is injective modulo `2^32`. -/
theorem odd_mul_inj {c a b : Nat} (hc : c % 2 = 1) (ha : a < 2 ^ 32) (hb : b < 2 ^ 32)
    (h : (c * a) % 2 ^ 32 = (c * b) % 2 ^ 32) : a = b := by
  have hcop : Nat.gcd (2 ^ 32) c = 1 :=
    Nat.Coprime.pow_left 32 (Nat.coprime_two_left.mpr (Nat.odd_iff.mpr hc))
  have hmod : a ≡ b [MOD 2 ^ 32] := Nat.ModEq.cancel_left_of_coprime hcop h
  exact Nat.ModEq.eq_of_lt_of_lt hmod ha hb

theorem FNV_prime_mul_inj {a b : Nat} (ha : a < 2 ^ 32) (hb : b < 2 ^ 32)
    (h : (FNV_prime * a) % 2 ^ 32 = (FNV_prime * b) % 2 ^ 32) : a = b :=
  odd_mul_inj (by decide) ha hb h

theorem passthrough_index_eq (magic : Nat) {i : Nat} (hi : i < 2 ^ 32) :
    passthrough_index magic i = ((FNV_prime * magic) % 2 ^ 32) ^^^ i := by
  have hprod : (FNV_prime * magic) % 2 ^ 32 < 2 ^ 32 := Nat.mod_lt _ (by norm_num)
  have hx : ((FNV_prime * magic) % 2 ^ 32) ^^^ i < 2 ^ 32 := Nat.xor_lt_two_pow hprod hi
  unfold passthrough_index
  exact Nat.mod_eq_of_lt (lt_trans hx (by norm_num))

theorem passthrough_index_lt (magic : Nat) {i : Nat} (hi : i < 2 ^ 32) :
    passthrough_index magic i < 2 ^ 32 := by
  rw [passthrough_index_eq magic hi]
  exact Nat.xor_lt_two_pow (Nat.mod_lt _ (by norm_num)) hi

theorem passthrough_index_magic_inj {m1 m2 i : Nat} (h1 : m1 < 2 ^ 32) (h2 : m2 < 2 ^ 32)
    (hi : i < 2 ^ 32) (h : passthrough_index m1 i = passthrough_index m2 i) : m1 = m2 := by
  rw [passthrough_index_eq m1 hi, passthrough_index_eq m2 hi] at h
  exact FNV_prime_mul_inj h1 h2 (Nat.xor_left_injective h)

theorem file_magic_lt (file : String) : file_magic file < 2 ^ 32 :=
  Nat.mod_lt _ (by norm_num)

theorem add_passthrough_feature_magic_null {L P : Type} (ec : Example L P)
    (mem : feature_store) (magic i : Nat) (x : float) (h : ec.passthrough = none) :
    add_passthrough_feature_magic ec mem magic i x = (ec, mem) := by
  simp [add_passthrough_feature_magic, h]

theorem read_write_ptr_same {L P : Type} (ec : Example L P) (mem : feature_store)
    (p : feature_ptr) (v : v_array feature) :
    read_ptr (write_ptr ec mem p v).1 (write_ptr ec mem p v).2 p = v := by
  cases p <;> simp [read_ptr, write_ptr]

theorem read_write_ptr_other {L P : Type} (ec : Example L P) (mem : feature_store)
    (p q : feature_ptr) (v : v_array feature) (hq : q ≠ p) :
    read_ptr (write_ptr ec mem p v).1 (write_ptr ec mem p v).2 q = read_ptr ec mem q := by
  cases p with
  | atomics ns =>
    cases q with
    | atomics ms =>
      have hne : ms ≠ ns := fun h => hq (by rw [h])
      simp [read_ptr, write_ptr, Function.update_noteq hne]
    | outside b => rfl
  | outside a =>
    cases q with
    | atomics ms => rfl
    | outside b =>
      have hne : b ≠ a := fun h => hq (by rw [h])
      simp [read_ptr, write_ptr, Function.update_noteq hne]

theorem write_ptr_passthrough {L P : Type} (ec : Example L P) (mem : feature_store)
    (p : feature_ptr) (v : v_array feature) :
    (write_ptr ec mem p v).1.passthrough = ec.passthrough := by
  cases p <;> rfl

theorem add_passthrough_feature_magic_set {L P : Type} (ec : Example L P)
    (mem : feature_store) (magic i : Nat) (x : float) (p : feature_ptr)
    (h : ec.passthrough = some p) :
    add_passthrough_feature_magic ec mem magic i x =
      write_ptr ec mem p (read_ptr ec mem p ++ [⟨x, passthrough_index magic i⟩]) := by
  simp [add_passthrough_feature_magic, h, v_array.push_back]

/-- The sequence `passthrough` points to, read after the call. -/
theorem add_passthrough_feature_magic_read {L P : Type} (ec : Example L P)
    (mem : feature_store) (magic i : Nat) (x : float) (p : feature_ptr)
    (h : ec.passthrough = some p) :
    read_ptr (add_passthrough_feature_magic ec mem magic i x).1
        (add_passthrough_feature_magic ec mem magic i x).2 p =
      read_ptr ec mem p ++ [⟨x, passthrough_index magic i⟩] := by
  rw [add_passthrough_feature_magic_set ec mem magic i x p h]
  exact read_write_ptr_same ec mem p _

theorem add_passthrough_feature_magic_passthrough {L P : Type} (ec : Example L P)
    (mem : feature_store) (magic i : Nat) (x : float) :
    (add_passthrough_feature_magic ec mem magic i x).1.passthrough = ec.passthrough := by
  cases h : ec.passthrough with
  | none => rw [add_passthrough_feature_magic_null ec mem magic i x h, h]
  | some p =>
    rw [add_passthrough_feature_magic_set ec mem magic i x p h, write_ptr_passthrough, h]

/-- A call whose `passthrough` does not point into the example returns the example as
it was. -/
theorem add_passthrough_feature_magic_fst {L P : Type} (ec : Example L P)
    (mem : feature_store) (magic i : Nat) (x : float)
    (hno : ∀ ns, ec.passthrough ≠ some (.atomics ns)) :
    (add_passthrough_feature_magic ec mem magic i x).1 = ec := by
  cases h : ec.passthrough with
  | none => rw [add_passthrough_feature_magic_null ec mem magic i x h]
  | some p =>
    cases p with
    | atomics ns => exact absurd h (hno ns)
    | outside a => rw [add_passthrough_feature_magic_set ec mem magic i x _ h]; rfl

theorem tag_search :
    (List.range 15).all (fun k2 => (List.range 255).all (fun k0 => tag_check k2 k0)) = true := by
  decide!

/-- The linear form of the magic tag has no non-trivial zero on character differences. -/
theorem tag_diff (d0 d1 d2 : Int) (h0 : -127 ≤ d0 ∧ d0 ≤ 127) (h1 : -127 ≤ d1 ∧ d1 ≤ 127)
    (h2 : -127 ≤ d2 ∧ d2 ≤ 127) (h : d0 * 483901 + d1 * 3417 + d2 * 8490177 = 0) :
    d0 = 0 ∧ d1 = 0 ∧ d2 = 0 := by
  obtain ⟨h0a, h0b⟩ := h0
  obtain ⟨h1a, h1b⟩ := h1
  have h2a : -7 ≤ d2 := by linarith
  have h2b : d2 ≤ 7 := by linarith
  obtain ⟨k0, hk0⟩ : ∃ k0 : Nat, (k0 : Int) = d0 + 127 :=
    ⟨(d0 + 127).toNat, Int.toNat_of_nonneg (by linarith)⟩
  obtain ⟨k2, hk2⟩ : ∃ k2 : Nat, (k2 : Int) = d2 + 7 :=
    ⟨(d2 + 7).toNat, Int.toNat_of_nonneg (by linarith)⟩
  have hs : tag_sum k0 k2 = 3417 * (-d1) := by
    unfold tag_sum
    rw [hk0, hk2]; linarith
  have hk02 : k0 < 255 ∧ k2 < 15 := by
    clear hs h
    omega
  have key := List.all_eq_true.mp
    (List.all_eq_true.mp tag_search k2 (List.mem_range.mpr hk02.2))
    k0 (List.mem_range.mpr hk02.1)
  have hm : tag_sum k0 k2 % 3417 = 0 := by rw [hs]; exact Int.mul_emod_right _ _
  have hlo : (-433959 : Int) ≤ tag_sum k0 k2 := by rw [hs]; linarith
  have hhi : tag_sum k0 k2 ≤ (433959 : Int) := by rw [hs]; linarith
  have hk : k0 = 127 ∧ k2 = 7 := by
    unfold tag_check at key
    rcases Bool.or_eq_true _ _ ▸ key with hA | hB
    · have hT : (tag_sum k0 k2 % 3417 == 0 && decide (-433959 ≤ tag_sum k0 k2) &&
          decide (tag_sum k0 k2 ≤ 433959)) = true := by
        simp only [Bool.and_eq_true, beq_iff_eq, decide_eq_true_eq]
        exact ⟨⟨hm, hlo⟩, hhi⟩
      rw [hT] at hA
      exact absurd hA (by decide)
    · simp only [Bool.and_eq_true, beq_iff_eq] at hB
      exact hB
  obtain ⟨e0, e2⟩ := hk
  have hd0 : d0 = 0 := by
    rw [e0] at hk0
    push_cast at hk0
    linarith
  have hd2 : d2 = 0 := by
    rw [e2] at hk2
    push_cast at hk2
    linarith
  refine ⟨hd0, ?_, hd2⟩
  rw [hd0, hd2] at h
  linarith

/-- The magic tag, as a function of three 7-bit character codes, is injective. -/
theorem tag_inj (x0 x1 x2 y0 y1 y2 : Nat) (a0 : x0 < 128) (a1 : x1 < 128) (a2 : x2 < 128)
    (b0 : y0 < 128) (b1 : y1 < 128) (b2 : y2 < 128)
    (h : (x0 * 483901 + x1 * 3417 + x2 * 8490177) % 2 ^ 32 =
      (y0 * 483901 + y1 * 3417 + y2 * 8490177) % 2 ^ 32) :
    x0 = y0 ∧ x1 = y1 ∧ x2 = y2 := by
  have hpow : (2 : Nat) ^ 32 = 4294967296 := by norm_num
  have hx : x0 * 483901 + x1 * 3417 + x2 * 8490177 < 2 ^ 32 := by linarith
  have hy : y0 * 483901 + y1 * 3417 + y2 * 8490177 < 2 ^ 32 := by linarith
  rw [Nat.mod_eq_of_lt hx, Nat.mod_eq_of_lt hy] at h
  have hz : ((x0 : Int) - y0) * 483901 + ((x1 : Int) - y1) * 3417 +
      ((x2 : Int) - y2) * 8490177 = 0 := by
    have hc : ((x0 * 483901 + x1 * 3417 + x2 * 8490177 : Nat) : Int) =
        ((y0 * 483901 + y1 * 3417 + y2 * 8490177 : Nat) : Int) := by rw [h]
    push_cast at hc
    linarith
  have c0 : (x0 : Int) < 128 := by exact_mod_cast a0
  have c1 : (x1 : Int) < 128 := by exact_mod_cast a1
  have c2 : (x2 : Int) < 128 := by exact_mod_cast a2
  have d0 : (y0 : Int) < 128 := by exact_mod_cast b0
  have d1 : (y1 : Int) < 128 := by exact_mod_cast b1
  have d2 : (y2 : Int) < 128 := by exact_mod_cast b2
  have n0 : (0 : Int) ≤ x0 := Int.natCast_nonneg _
  have n1 : (0 : Int) ≤ x1 := Int.natCast_nonneg _
  have n2 : (0 : Int) ≤ x2 := Int.natCast_nonneg _
  have m0 : (0 : Int) ≤ y0 := Int.natCast_nonneg _
  have m1 : (0 : Int) ≤ y1 := Int.natCast_nonneg _
  have m2 : (0 : Int) ≤ y2 := Int.natCast_nonneg _
  obtain ⟨e0, e1, e2⟩ := tag_diff ((x0 : Int) - y0) ((x1 : Int) - y1) ((x2 : Int) - y2)
    ⟨by linarith, by linarith⟩ ⟨by linarith, by linarith⟩ ⟨by linarith, by linarith⟩ hz
  refine ⟨?_, ?_, ?_⟩
  · exact_mod_cast sub_eq_zero.mp e0
  · exact_mod_cast sub_eq_zero.mp e1
  · exact_mod_cast sub_eq_zero.mp e2

/-- On 7-bit characters the magic tag determines the first three characters. -/
theorem file_magic_inj (f1 f2 : String) (h1 : ∀ k, k < 3 → file_char f1 k < 128)
    (h2 : ∀ k, k < 3 → file_char f2 k < 128) (h : file_magic f1 = file_magic f2) :
    ∀ k, k < 3 → file_char f1 k = file_char f2 k := by
  obtain ⟨e0, e1, e2⟩ := tag_inj _ _ _ _ _ _ (h1 0 (by norm_num)) (h1 1 (by norm_num))
    (h1 2 (by norm_num)) (h2 0 (by norm_num)) (h2 1 (by norm_num)) (h2 2 (by norm_num)) h
  intro k hk
  have hk3 : k = 0 ∨ k = 1 ∨ k = 2 := by omega
  rcases hk3 with rfl | rfl | rfl
  · exact e0
  · exact e1
  · exact e2

/-- Files that agree on their first three characters get the same magic tag. -/
theorem file_magic_congr (f1 f2 : String)
    (h : ∀ k, k < 3 → file_char f1 k = file_char f2 k) : file_magic f1 = file_magic f2 := by
  unfold file_magic
  rw [h 0 (by norm_num), h 1 (by norm_num), h 2 (by norm_num)]

theorem feature_le_total : IsTotal feature feature_le :=
  ⟨fun a b => Nat.le_total a.weight_index b.weight_index⟩

theorem feature_le_trans : IsTrans feature feature_le :=
  ⟨fun _ _ _ hab hbc => Nat.le_trans hab hbc⟩

/-- Inserting `a` into `l` and then keeping the features of index `k` is the same as
keeping them in `a :: l`: the insertion does not move `a` past a feature of its index. -/
theorem filter_orderedInsert (k : Nat) (a : feature) (l : List feature) :
    (l.orderedInsert feature_le a).filter (fun f => f.weight_index == k) =
      (a :: l).filter (fun f => f.weight_index == k) := by
  induction l with
  | nil => rfl
  | cons b t ih =>
    by_cases hab : feature_le a b
    · simp only [List.orderedInsert, if_pos hab]
    · have hlt : b.weight_index < a.weight_index := Nat.lt_of_not_le hab
      simp only [List.orderedInsert, if_neg hab]
      rw [List.filter_cons, ih]
      by_cases hb : b.weight_index = k
      · have ha : a.weight_index ≠ k := by omega
        simp [List.filter_cons, hb, ha]
      · simp [List.filter_cons, hb]

/-- Sorting by insertion keeps, for every index `k`, the features of index `k` in their
original relative order. -/
theorem filter_insertionSort (k : Nat) (l : List feature) :
    (l.insertionSort feature_le).filter (fun f => f.weight_index == k) =
      l.filter (fun f => f.weight_index == k) := by
  induction l with
  | nil => rfl
  | cons a t ih =>
    rw [List.insertionSort, filter_orderedInsert, List.filter_cons, List.filter_cons, ih]

theorem sorted_map_weight_index (l : List feature) (h : l.Sorted feature_le) :
    (l.map feature.weight_index).Sorted (fun a b => a ≤ b) := by
  unfold List.Sorted at *
  rw [List.pairwise_map]
  exact h

theorem passthrough_index_ordinal_inj {magic i1 i2 : Nat} (h1 : i1 < 2 ^ 32)
    (h2 : i2 < 2 ^ 32) (h : passthrough_index magic i1 = passthrough_index magic i2) :
    i1 = i2 := by
  rw [passthrough_index_eq magic h1, passthrough_index_eq magic h2] at h
  exact Nat.xor_right_injective h

/-- C1: `example_is_newline` returns non-zero exactly when `ec.indices` is empty or is
the one-element sequence holding `constant_namespace` (128); on the index sequences
`[]`, `[128]`, `[128, 5]`, `[5]` it returns 1, 1, 0, 0. -/
theorem example_is_newline_iff :
    (∀ (L P : Type) (ec : Example L P),
      example_is_newline ec ≠ 0 ↔
        (ec.indices.size = 0 ∨
          (ec.indices.size = 1 ∧ ∃ a, ec.indices = [a] ∧ a.val = 128))) ∧
    example_is_newline { Example.blank with indices := [] } = 1 ∧
    example_is_newline { Example.blank with indices := [128] } = 1 ∧
    example_is_newline { Example.blank with indices := [128, 5] } = 0 ∧
    example_is_newline { Example.blank with indices := [5] } = 0 := by
  refine ⟨?_, by decide, by decide, by decide, by decide⟩
  intro L P ec
  rcases hidx : ec.indices with _ | ⟨a, _ | ⟨b, t⟩⟩
  · simp [example_is_newline_nil ec hidx, v_array.size]
  · rw [example_is_newline_single ec a hidx]
    by_cases ha : a.val = 128 <;> simp [v_array.size, constant_namespace, ha]
  · rw [example_is_newline_many ec (by simp [hidx])]
    simp [v_array.size]

/-- C2: `a == b` on features is true exactly when the two weight indices are equal,
whatever the values `x`; `feature(1.0, 42) == feature(9.0, 42)` is true and
`feature(1.0, 42) == feature(1.0, 43)` is false. -/
theorem feature_eq_iff :
    (∀ a b : feature, feature.eq a b = true ↔ a.weight_index = b.weight_index) ∧
    (∀ (x y : float) (k : Nat), feature.eq ⟨x, k⟩ ⟨y, k⟩ = true) ∧
    feature.eq ⟨float.one, 42⟩ ⟨float.nine, 42⟩ = true ∧
    feature.eq ⟨float.one, 42⟩ ⟨float.one, 43⟩ = false := by
  refine ⟨?_, ?_, by decide, by decide⟩
  · intro a b
    simp [feature.eq]
  · intro x y k
    simp [feature.eq]

/-- C3: with a null `passthrough`, `add_passthrough_feature_magic` returns (it is a total
function) and changes nothing: the example after the call is the example before it,
the store of feature sequences is the store before it, and no sequence changed its
length. -/
theorem add_passthrough_feature_magic_unset {L P : Type} (ec : Example L P)
    (mem : feature_store) (magic i : Nat) (x : float) (h : ec.passthrough = none) :
    (add_passthrough_feature_magic ec mem magic i x).1 = ec ∧
    (add_passthrough_feature_magic ec mem magic i x).2 = mem ∧
    ∀ a, ((add_passthrough_feature_magic ec mem magic i x).2 a).size = (mem a).size := by
  rw [add_passthrough_feature_magic_null ec mem magic i x h]
  exact ⟨rfl, rfl, fun _ => rfl⟩

theorem add_passthrough_feature_magic_unset_witness :
    Example.blank.passthrough = none ∧
    (add_passthrough_feature_magic Example.blank feature_store.empty 5 3 float.one).2 =
      feature_store.empty :=
  ⟨rfl, (add_passthrough_feature_magic_unset Example.blank feature_store.empty 5 3
    float.one rfl).2.1⟩

/-- C4: with `passthrough` pointing at a sequence `s`, a call with 32-bit `magic` and
`i` turns that sequence into `s` followed by the one feature
`(x, (FNV_prime * magic mod 2^32) xor i)`, an index that fits 64 bits: the length grows
by one, the earlier entries stay in place, every other sequence is untouched, the
pointer stays as it was, and a second call appends behind the first. When the sequence
is held outside the example, the example is left as it was. -/
theorem add_passthrough_feature_magic_appends {L P : Type} (ec : Example L P)
    (mem : feature_store) (p : feature_ptr) (s : v_array feature) (magic i : Nat)
    (x : float) (hp : ec.passthrough = some p) (hs : read_ptr ec mem p = s)
    (hm : magic < 2 ^ 32) (hi : i < 2 ^ 32) :
    read_ptr (add_passthrough_feature_magic ec mem magic i x).1
        (add_passthrough_feature_magic ec mem magic i x).2 p =
      s ++ [⟨x, ((FNV_prime * magic) % 2 ^ 32) ^^^ i⟩] ∧
    ((FNV_prime * magic) % 2 ^ 32) ^^^ i < 2 ^ 64 ∧
    (read_ptr (add_passthrough_feature_magic ec mem magic i x).1
        (add_passthrough_feature_magic ec mem magic i x).2 p).size = s.size + 1 ∧
    (∀ k, k < s.size →
      (read_ptr (add_passthrough_feature_magic ec mem magic i x).1
        (add_passthrough_feature_magic ec mem magic i x).2 p)[k]? = s[k]?) ∧
    (∀ q, q ≠ p →
      read_ptr (add_passthrough_feature_magic ec mem magic i x).1
        (add_passthrough_feature_magic ec mem magic i x).2 q = read_ptr ec mem q) ∧
    (add_passthrough_feature_magic ec mem magic i x).1.passthrough = ec.passthrough ∧
    (∀ a, p = .outside a →
      (add_passthrough_feature_magic ec mem magic i x).1 = ec ∧
      (add_passthrough_feature_magic ec mem magic i x).2 a =
        s ++ [⟨x, ((FNV_prime * magic) % 2 ^ 32) ^^^ i⟩] ∧
      ∀ b, b ≠ a → (add_passthrough_feature_magic ec mem magic i x).2 b = mem b) ∧
    (∀ (magic2 i2 : Nat) (x2 : float), magic2 < 2 ^ 32 → i2 < 2 ^ 32 →
      read_ptr
        (add_passthrough_feature_magic (add_passthrough_feature_magic ec mem magic i x).1
          (add_passthrough_feature_magic ec mem magic i x).2 magic2 i2 x2).1
        (add_passthrough_feature_magic (add_passthrough_feature_magic ec mem magic i x).1
          (add_passthrough_feature_magic ec mem magic i x).2 magic2 i2 x2).2 p =
        s ++ [⟨x, ((FNV_prime * magic) % 2 ^ 32) ^^^ i⟩,
              ⟨x2, ((FNV_prime * magic2) % 2 ^ 32) ^^^ i2⟩]) := by
  have _hmagic : magic < 2 ^ 32 := hm
  have hread := add_passthrough_feature_magic_read ec mem magic i x p hp
  rw [hs, passthrough_index_eq magic hi] at hread
  have hptr := add_passthrough_feature_magic_passthrough ec mem magic i x
  refine ⟨hread, ?_, ?_, ?_, ?_, hptr, ?_, ?_⟩
  · exact lt_trans (Nat.xor_lt_two_pow (Nat.mod_lt _ (by norm_num)) hi) (by norm_num)
  · rw [hread]
    simp [v_array.size]
  · intro k hk
    rw [hread]
    exact List.getElem?_append_left hk
  · intro q hq
    rw [add_passthrough_feature_magic_set ec mem magic i x p hp]
    exact read_write_ptr_other ec mem p q _ hq
  · intro a ha
    subst ha
    refine ⟨add_passthrough_feature_magic_fst ec mem magic i x
      (fun ns h => by rw [hp] at h; cases h), hread, ?_⟩
    intro b hb
    rw [add_passthrough_feature_magic_set ec mem magic i x _ hp]
    exact Function.update_noteq hb _ _
  · intro magic2 i2 x2 _ hi2
    have hp2 : (add_passthrough_feature_magic ec mem magic i x).1.passthrough = some p := by
      rw [hptr, hp]
    rw [add_passthrough_feature_magic_read _ _ magic2 i2 x2 p hp2, hread,
      passthrough_index_eq magic2 hi2]
    simp

theorem add_passthrough_feature_magic_appends_witness :
    Example.with_passthrough.passthrough = some (.outside 0) ∧
    (2 : Nat) < 2 ^ 32 ∧ (1 : Nat) < 2 ^ 32 ∧
    (add_passthrough_feature_magic Example.with_passthrough
      (Function.update feature_store.empty 0 [⟨float.nine, 7⟩]) 2 1 float.one).2 0 =
      [⟨float.nine, 7⟩] ++ [⟨float.one, ((FNV_prime * 2) % 2 ^ 32) ^^^ 1⟩] ∧
    (add_passthrough_feature_magic Example.aliased feature_store.empty 2 1
      float.one).1.atomics 65 =
      [⟨float.one, 10⟩] ++ [⟨float.one, ((FNV_prime * 2) % 2 ^ 32) ^^^ 1⟩] :=
  ⟨rfl, by norm_num, by norm_num,
   ((add_passthrough_feature_magic_appends Example.with_passthrough
    (Function.update feature_store.empty 0 [⟨float.nine, 7⟩]) (.outside 0)
    [⟨float.nine, 7⟩] 2 1 float.one rfl (by simp [read_ptr]) (by norm_num)
    (by norm_num)).2.2.2.2.2.2.1 0 rfl).2.1,
   (add_passthrough_feature_magic_appends Example.aliased feature_store.empty
    (.atomics 65) [⟨float.one, 10⟩] 2 1 float.one rfl (by decide) (by norm_num)
    (by norm_num)).1⟩

/-- C5, as the claim states it, fails: the source files `vowpalwabbit/oaa.cc` and
`vowpalwabbit/csoaa.cc` have different path names, yet the macro derives the same magic
tag in both and, for the ordinal 1, appends the same index in both. -/
theorem add_passthrough_feature_collision :
    "vowpalwabbit/oaa.cc" ≠ "vowpalwabbit/csoaa.cc" ∧
    file_magic "vowpalwabbit/oaa.cc" = 1067810668 ∧
    file_magic "vowpalwabbit/csoaa.cc" = 1067810668 ∧
    (add_passthrough_feature "vowpalwabbit/oaa.cc" Example.with_passthrough
      feature_store.empty 1 float.one).2 0 = [⟨float.one, 2642908933⟩] ∧
    (add_passthrough_feature "vowpalwabbit/csoaa.cc" Example.with_passthrough
      feature_store.empty 1 float.one).2 0 = [⟨float.one, 2642908933⟩] := by
  refine ⟨by decide, by decide, by decide, by decide, by decide⟩

/-- C5, amended: for two uses of the macro in source files whose path names, made of
two or more 7-bit characters, differ in at least one of their first three characters,
and for every 32-bit ordinal `i`, the index appended by the one call site differs from
the index appended by the other; files that agree on their first three characters
append the same index. -/
theorem add_passthrough_feature_distinct (f1 f2 : String) (i : Nat)
    (h1 : ∀ k, k < 3 → file_char f1 k < 128) (h2 : ∀ k, k < 3 → file_char f2 k < 128)
    (hlen : 2 ≤ f1.length ∧ 2 ≤ f2.length) (hi : i < 2 ^ 32) :
    ((∃ k, k < 3 ∧ file_char f1 k ≠ file_char f2 k) ↔
      passthrough_index (file_magic f1) i ≠ passthrough_index (file_magic f2) i) ∧
    ((∃ k, k < 3 ∧ file_char f1 k ≠ file_char f2 k) →
      ∀ (L P : Type) (ec : Example L P) (mem : feature_store) (x : float) (p : feature_ptr),
        ec.passthrough = some p →
        read_ptr (add_passthrough_feature f1 ec mem i x).1
            (add_passthrough_feature f1 ec mem i x).2 p =
          read_ptr ec mem p ++ [⟨x, passthrough_index (file_magic f1) i⟩] ∧
        read_ptr (add_passthrough_feature f2 ec mem i x).1
            (add_passthrough_feature f2 ec mem i x).2 p =
          read_ptr ec mem p ++ [⟨x, passthrough_index (file_magic f2) i⟩] ∧
        read_ptr (add_passthrough_feature f1 ec mem i x).1
            (add_passthrough_feature f1 ec mem i x).2 p ≠
          read_ptr (add_passthrough_feature f2 ec mem i x).1
            (add_passthrough_feature f2 ec mem i x).2 p) := by
  have _hdefined : 2 ≤ f1.length ∧ 2 ≤ f2.length := hlen
  have hiff : (∃ k, k < 3 ∧ file_char f1 k ≠ file_char f2 k) ↔
      passthrough_index (file_magic f1) i ≠ passthrough_index (file_magic f2) i := by
    constructor
    · rintro ⟨k, hk, hne⟩ heq
      have hmag := passthrough_index_magic_inj (file_magic_lt f1) (file_magic_lt f2) hi heq
      exact hne (file_magic_inj f1 f2 h1 h2 hmag k hk)
    · intro hne
      by_contra hall
      push_neg at hall
      exact hne (by rw [file_magic_congr f1 f2 hall])
  refine ⟨hiff, ?_⟩
  intro hd L P ec mem x p hp
  have hne := hiff.mp hd
  unfold add_passthrough_feature
  have r1 := add_passthrough_feature_magic_read ec mem (file_magic f1) i x p hp
  have r2 := add_passthrough_feature_magic_read ec mem (file_magic f2) i x p hp
  refine ⟨r1, r2, ?_⟩
  rw [r1, r2]
  intro heq
  have hlast := List.append_cancel_left heq
  simp at hlast
  exact hne hlast

theorem add_passthrough_feature_distinct_witness :
    (∀ k, k < 3 → file_char "oaa.cc" k < 128) ∧ (∀ k, k < 3 → file_char "csoaa.cc" k < 128) ∧
    (2 ≤ "oaa.cc".length ∧ 2 ≤ "csoaa.cc".length) ∧
    file_char "oaa.cc" 0 ≠ file_char "csoaa.cc" 0 ∧
    passthrough_index (file_magic "oaa.cc") 1 ≠ passthrough_index (file_magic "csoaa.cc") 1 :=
  ⟨by decide, by decide, by decide, by decide,
   ((add_passthrough_feature_distinct "oaa.cc" "csoaa.cc" 1 (by decide) (by decide)
    (by decide) (by norm_num)).1).mp ⟨0, by decide⟩⟩

/-- C6: two distinct 32-bit magic tags give different indices for at least one 32-bit
ordinal `i` (indeed for every one), and the sequences the two calls leave behind
differ; the same holds of the index expression with any odd multiplier in the place of
`FNV_prime`. -/
theorem passthrough_index_separates (m1 m2 : Nat) (h1 : m1 < 2 ^ 32) (h2 : m2 < 2 ^ 32)
    (hne : m1 ≠ m2) :
    (∃ i, i < 2 ^ 32 ∧
      ((FNV_prime * m1) % 2 ^ 32) ^^^ i ≠ ((FNV_prime * m2) % 2 ^ 32) ^^^ i ∧
      passthrough_index m1 i ≠ passthrough_index m2 i ∧
      ∀ (L P : Type) (ec : Example L P) (mem : feature_store) (x : float) (p : feature_ptr),
        ec.passthrough = some p →
        read_ptr (add_passthrough_feature_magic ec mem m1 i x).1
            (add_passthrough_feature_magic ec mem m1 i x).2 p ≠
          read_ptr (add_passthrough_feature_magic ec mem m2 i x).1
            (add_passthrough_feature_magic ec mem m2 i x).2 p) ∧
    (∀ i, i < 2 ^ 32 → passthrough_index m1 i ≠ passthrough_index m2 i) ∧
    (∀ c, c % 2 = 1 → ∀ i,
      ((c * m1) % 2 ^ 32) ^^^ i ≠ ((c * m2) % 2 ^ 32) ^^^ i) := by
  have hall : ∀ i, i < 2 ^ 32 → passthrough_index m1 i ≠ passthrough_index m2 i :=
    fun i hi heq => hne (passthrough_index_magic_inj h1 h2 hi heq)
  refine ⟨⟨0, by norm_num, ?_, hall 0 (by norm_num), ?_⟩, hall,
    fun c hc i heq => hne (odd_mul_inj hc h1 h2 (Nat.xor_left_injective heq))⟩
  · have h0 := hall 0 (by norm_num)
    rwa [passthrough_index_eq m1 (by norm_num), passthrough_index_eq m2 (by norm_num)] at h0
  · intro L P ec mem x p hp
    rw [add_passthrough_feature_magic_read ec mem m1 0 x p hp,
      add_passthrough_feature_magic_read ec mem m2 0 x p hp]
    intro heq
    have hlast := List.append_cancel_left heq
    simp at hlast
    exact hall 0 (by norm_num) hlast

theorem passthrough_index_separates_witness :
    (1 : Nat) < 2 ^ 32 ∧ (2 : Nat) < 2 ^ 32 ∧ (1 : Nat) ≠ 2 ∧
    passthrough_index 1 0 ≠ passthrough_index 2 0 :=
  ⟨by norm_num, by norm_num, by decide,
   (passthrough_index_separates 1 2 (by norm_num) (by norm_num) (by decide)).2.1 0
     (by norm_num)⟩

/-- C7: `example_is_newline` returns 0 for every example with two or more active
namespaces, so in particular for one whose `indices` hold `constant_namespace` (128)
together with another entry. -/
theorem example_is_newline_two_or_more {L P : Type} (ec : Example L P) :
    (2 ≤ ec.indices.size → example_is_newline ec = 0) ∧
    ((∃ a, a ∈ ec.indices ∧ a.val = constant_namespace) →
      (∃ b, b ∈ ec.indices ∧ b.val ≠ constant_namespace) → example_is_newline ec = 0) := by
  refine ⟨fun h => example_is_newline_many ec h, ?_⟩
  rintro ⟨a, ha, hav⟩ ⟨b, hb, hbv⟩
  apply example_is_newline_many
  rcases hidx : ec.indices with _ | ⟨c, _ | ⟨d, t⟩⟩
  · rw [hidx] at ha
    simp at ha
  · rw [hidx] at ha hb
    simp only [List.mem_singleton] at ha hb
    rw [ha] at hav
    rw [hb] at hbv
    exact absurd hav hbv
  · simp

theorem example_is_newline_two_or_more_witness :
    example_is_newline { Example.blank with indices := [128, 5] } = 0 ∧
    example_is_newline { Example.blank with indices := [5, 128, 7] } = 0 :=
  ⟨(example_is_newline_two_or_more { Example.blank with indices := [128, 5] }).1 (by decide),
   (example_is_newline_two_or_more { Example.blank with indices := [5, 128, 7] }).2
     ⟨128, by decide, by decide⟩ ⟨5, by decide, by decide⟩⟩

/-- C8, as the claim states it, fails: `passthrough` has the type of a pointer to a
namespace sequence, and on an example whose `passthrough` points at its own
`atomics[65]` (one feature, `num_features` 1, the count invariant holding) the call
grows `atomics[65]` to two features while `num_features` stays 1. -/
theorem add_passthrough_feature_magic_aliased :
    Example.aliased.num_features = ∑ ns : Fin 256, (Example.aliased.atomics ns).size ∧
    (add_passthrough_feature_magic Example.aliased feature_store.empty 2 1
      float.nine).1.atomics 65 = [⟨float.one, 10⟩, ⟨float.nine, 33555239⟩] ∧
    (add_passthrough_feature_magic Example.aliased feature_store.empty 2 1
      float.nine).1.atomics 65 ≠ Example.aliased.atomics 65 ∧
    (add_passthrough_feature_magic Example.aliased feature_store.empty 2 1
      float.nine).1.num_features = 1 ∧
    (add_passthrough_feature_magic Example.aliased feature_store.empty 2 1
      float.nine).1.num_features ≠
      ∑ ns : Fin 256, ((add_passthrough_feature_magic Example.aliased feature_store.empty
        2 1 float.nine).1.atomics ns).size := by
  refine ⟨by decide!, by decide, by decide, by decide, by decide!⟩

/-- C8, amended: for every example whose `passthrough` is null or points at a sequence
that is not one of the example's own `atomics[ns]`, `add_passthrough_feature_magic`
leaves the 256 namespace feature sequences, the audit sequences, the active-namespace
list and the cached aggregates `num_features`, `sum_feat_sq`, `total_sum_feat_sq` as
they were; so `num_features` still equals the number of features in the namespaces if
it did before. -/
theorem add_passthrough_feature_magic_frame {L P : Type} (ec : Example L P)
    (mem : feature_store) (magic i : Nat) (x : float)
    (hno : ∀ ns, ec.passthrough ≠ some (.atomics ns)) :
    (∀ ns, (add_passthrough_feature_magic ec mem magic i x).1.atomics ns = ec.atomics ns) ∧
    (∀ ns, (add_passthrough_feature_magic ec mem magic i x).1.audit_features ns =
      ec.audit_features ns) ∧
    (add_passthrough_feature_magic ec mem magic i x).1.indices = ec.indices ∧
    (add_passthrough_feature_magic ec mem magic i x).1.num_features = ec.num_features ∧
    (∀ ns, (add_passthrough_feature_magic ec mem magic i x).1.sum_feat_sq ns =
      ec.sum_feat_sq ns) ∧
    (add_passthrough_feature_magic ec mem magic i x).1.total_sum_feat_sq =
      ec.total_sum_feat_sq ∧
    (ec.num_features = ∑ ns : Fin 256, (ec.atomics ns).size →
      (add_passthrough_feature_magic ec mem magic i x).1.num_features =
        ∑ ns : Fin 256, ((add_passthrough_feature_magic ec mem magic i x).1.atomics ns).size) := by
  rw [add_passthrough_feature_magic_fst ec mem magic i x hno]
  exact ⟨fun _ => rfl, fun _ => rfl, rfl, rfl, fun _ => rfl, rfl, fun h => h⟩

theorem add_passthrough_feature_magic_frame_witness :
    (∀ ns, Example.two_namespaces_passthrough.passthrough ≠ some (.atomics ns)) ∧
    Example.two_namespaces_passthrough.num_features =
      ∑ ns : Fin 256, (Example.two_namespaces_passthrough.atomics ns).size ∧
    (add_passthrough_feature_magic Example.two_namespaces_passthrough feature_store.empty
      5 3 float.one).2 0 = [⟨float.one, 83888092⟩] ∧
    (add_passthrough_feature_magic Example.two_namespaces_passthrough feature_store.empty
      5 3 float.one).1.num_features =
    ∑ ns : Fin 256, ((add_passthrough_feature_magic Example.two_namespaces_passthrough
      feature_store.empty 5 3 float.one).1.atomics ns).size :=
  ⟨(fun ns h => by cases h), by decide!, by decide,
   (add_passthrough_feature_magic_frame Example.two_namespaces_passthrough
    feature_store.empty 5 3 float.one (fun ns h => by cases h)).2.2.2.2.2.2 (by decide!)⟩

/-- C9: the ten reserved namespace constants are, in the order of their declaration,
126, 127, ..., 135; they are pairwise distinct, their values are exactly the numbers
from 126 to 135, `constant_namespace` is 128, and each is below 256. -/
theorem reserved_namespaces_values :
    reserved_namespaces = [126, 127, 128, 129, 130, 131, 132, 133, 134, 135] ∧
    reserved_namespaces.length = 10 ∧
    reserved_namespaces.Nodup ∧
    (∀ n, n ∈ reserved_namespaces ↔ (126 ≤ n ∧ n ≤ 135)) ∧
    constant_namespace = 128 ∧
    (∀ n, n ∈ reserved_namespaces → n < 256) := by
  have hval : reserved_namespaces = [126, 127, 128, 129, 130, 131, 132, 133, 134, 135] := rfl
  refine ⟨hval, rfl, by rw [hval]; decide, ?_, rfl, ?_⟩
  · intro n
    rw [hval]
    simp only [List.mem_cons, List.mem_singleton, List.not_mem_nil, or_false]
    omega
  · intro n hn
    rw [hval] at hn
    simp only [List.mem_cons, List.mem_singleton, List.not_mem_nil, or_false] at hn
    omega

/-- C10: the feature map of `flatten_sort_example` is a permutation of the feature map
of `flatten_example` on the same input, is in ascending order of `weight_index`, and
keeps the features of each index in their original relative order; and two examples
that list the same namespaces in different orders get the same ascending sequence of
indices. -/
theorem flatten_sort_example_sorted {L P : Type} (all : vw) (ec : Example L P) :
    List.Perm (flatten_sort_example all ec).feature_map (flatten_example all ec).feature_map ∧
    (flatten_sort_example all ec).feature_map.Sorted
      (fun a b => a.weight_index ≤ b.weight_index) ∧
    (∀ k, (flatten_sort_example all ec).feature_map.filter (fun f => f.weight_index == k) =
      (flatten_example all ec).feature_map.filter (fun f => f.weight_index == k)) ∧
    (∀ ec2 : Example L P, ec2.atomics = ec.atomics → List.Perm ec2.indices ec.indices →
      (flatten_sort_example all ec2).feature_map.map feature.weight_index =
        (flatten_sort_example all ec).feature_map.map feature.weight_index) := by
  have hsorted : ∀ e : Example L P,
      (flatten_sort_example all e).feature_map.Sorted feature_le := fun e =>
    @List.sorted_insertionSort _ feature_le _ feature_le_total feature_le_trans _
  refine ⟨List.perm_insertionSort _ _, hsorted ec, fun k => filter_insertionSort k _, ?_⟩
  intro ec2 hat hperm
  have hflat : List.Perm (flatten_example all ec2).feature_map
      (flatten_example all ec).feature_map := by
    show List.Perm (ec2.indices.flatMap ec2.atomics) (ec.indices.flatMap ec.atomics)
    rw [hat]
    exact List.Perm.flatMap_right _ hperm
  have hp : List.Perm (flatten_sort_example all ec2).feature_map
      (flatten_sort_example all ec).feature_map :=
    ((List.perm_insertionSort _ _).trans hflat).trans (List.perm_insertionSort _ _).symm
  exact List.eq_of_perm_of_sorted (hp.map _) (sorted_map_weight_index _ (hsorted ec2))
    (sorted_map_weight_index _ (hsorted ec))

theorem flatten_sort_example_sorted_witness :
    (flatten_example vw.unit Example.two_namespaces_swapped).feature_map =
      [⟨float.two, 20⟩, ⟨float.three, 30⟩, ⟨float.one, 10⟩] ∧
    (flatten_sort_example vw.unit Example.two_namespaces_swapped).feature_map =
      [⟨float.one, 10⟩, ⟨float.two, 20⟩, ⟨float.three, 30⟩] ∧
    (flatten_sort_example vw.unit Example.two_namespaces_swapped).feature_map.map
        feature.weight_index =
      (flatten_sort_example vw.unit Example.two_namespaces).feature_map.map
        feature.weight_index :=
  ⟨by decide, by decide,
   (flatten_sort_example_sorted vw.unit Example.two_namespaces).2.2.2
     Example.two_namespaces_swapped rfl (by decide)⟩

/-- C12: for a fixed 32-bit magic tag the index is an injective function of the 32-bit
ordinal: equal indices `(FNV_prime * magic) xor i1` and `(FNV_prime * magic) xor i2`
force `i1 = i2`, and two calls that leave the same sequence behind had the same ordinal;
this holds with any multiplier in the place of `FNV_prime`. -/
theorem passthrough_index_ordinal_injective (magic i1 i2 : Nat) (hm : magic < 2 ^ 32)
    (h1 : i1 < 2 ^ 32) (h2 : i2 < 2 ^ 32) :
    (((FNV_prime * magic) % 2 ^ 32) ^^^ i1 = ((FNV_prime * magic) % 2 ^ 32) ^^^ i2 →
      i1 = i2) ∧
    (passthrough_index magic i1 = passthrough_index magic i2 → i1 = i2) ∧
    (∀ (L P : Type) (ec : Example L P) (mem : feature_store) (x : float) (p : feature_ptr),
      ec.passthrough = some p →
      read_ptr (add_passthrough_feature_magic ec mem magic i1 x).1
          (add_passthrough_feature_magic ec mem magic i1 x).2 p =
        read_ptr (add_passthrough_feature_magic ec mem magic i2 x).1
          (add_passthrough_feature_magic ec mem magic i2 x).2 p → i1 = i2) ∧
    (∀ c, ((c * magic) % 2 ^ 32) ^^^ i1 = ((c * magic) % 2 ^ 32) ^^^ i2 → i1 = i2) := by
  have _hmagic : magic < 2 ^ 32 := hm
  refine ⟨fun h => Nat.xor_right_injective h, passthrough_index_ordinal_inj h1 h2, ?_,
    fun c h => Nat.xor_right_injective h⟩
  intro L P ec mem x p hp heq
  rw [add_passthrough_feature_magic_read ec mem magic i1 x p hp,
    add_passthrough_feature_magic_read ec mem magic i2 x p hp] at heq
  have hlast := List.append_cancel_left heq
  simp at hlast
  exact passthrough_index_ordinal_inj h1 h2 hlast

theorem passthrough_index_ordinal_injective_witness :
    (5 : Nat) < 2 ^ 32 ∧ (3 : Nat) < 2 ^ 32 ∧ (4 : Nat) < 2 ^ 32 ∧
    passthrough_index 5 3 ≠ passthrough_index 5 4 :=
  ⟨by norm_num, by norm_num, by norm_num, fun h =>
    absurd ((passthrough_index_ordinal_injective 5 3 4 (by norm_num) (by norm_num)
      (by norm_num)).2.1 h) (by decide)⟩

/-- C13: `valid_ns(c)` is false exactly when `c` is `'|'` (124) or `':'` (58); space, the
NUL character and every character with the high bit set are accepted. -/
theorem valid_ns_iff :
    (∀ c : Fin 256, valid_ns c = false ↔ (c.val = Char.toNat '|' ∨ c.val = Char.toNat ':')) ∧
    (∀ c : Fin 256, valid_ns c = false ↔ (c = 124 ∨ c = 58)) ∧
    (∀ c : Fin 256, c ≠ 124 → c ≠ 58 → valid_ns c = true) ∧
    valid_ns ⟨Char.toNat ' ', by decide⟩ = true ∧
    valid_ns 0 = true ∧
    (∀ c : Fin 256, 128 ≤ c.val → valid_ns c = true) := by
  have h1 : Char.toNat '|' = 124 := by decide
  have h2 : Char.toNat ':' = 58 := by decide
  have hval : ∀ c : Fin 256, valid_ns c = false ↔ (c.val = 124 ∨ c.val = 58) := by
    intro c
    unfold valid_ns
    rw [h1, h2]
    simp only [Bool.not_eq_false', Bool.or_eq_true, beq_iff_eq]
  have hall : ∀ c : Fin 256, valid_ns c = false ↔ (c = 124 ∨ c = 58) := by
    intro c
    rw [hval c, Fin.ext_iff, Fin.ext_iff]
    rfl
  refine ⟨?_, hall, ?_, by decide, by decide, ?_⟩
  · intro c
    rw [h1, h2]
    exact hval c
  · intro c h1 h2
    cases hv : valid_ns c with
    | true => rfl
    | false => exact absurd ((hall c).mp hv) (by simp [h1, h2])
  · intro c hc
    cases hv : valid_ns c with
    | true => rfl
    | false =>
      rcases (hall c).mp hv with h | h
      · rw [h] at hc
        exact absurd hc (by decide)
      · rw [h] at hc
        exact absurd hc (by decide)

/-- C14: feature equality is reflexive, symmetric and transitive, structurally equal
features are equal under it, and it is strictly coarser than structural equality:
`feature(1.0, 42) == feature(9.0, 42)` holds and the two values `x` differ. -/
theorem feature_eq_equivalence :
    (∀ a : feature, feature.eq a a = true) ∧
    (∀ a b : feature, feature.eq a b = true → feature.eq b a = true) ∧
    (∀ a b c : feature, feature.eq a b = true → feature.eq b c = true →
      feature.eq a c = true) ∧
    (∀ a b : feature, a = b → feature.eq a b = true) ∧
    (∃ a b : feature, feature.eq a b = true ∧ a.x ≠ b.x ∧ a ≠ b) := by
  refine ⟨?_, ?_, ?_, ?_, ?_⟩
  · intro a
    simp [feature.eq]
  · intro a b h
    simp only [feature.eq, beq_iff_eq] at h ⊢
    exact h.symm
  · intro a b c hab hbc
    simp only [feature.eq, beq_iff_eq] at hab hbc ⊢
    exact hab.trans hbc
  · rintro a b rfl
    simp [feature.eq]
  · exact ⟨⟨float.one, 42⟩, ⟨float.nine, 42⟩, by decide, by decide, by decide⟩

end VW
